import Mathlib

/-! # CPP11_NewFeatures: the variadic-template snippets of `main.cpp`

A verification development for the variadic function templates of `main.cpp`:
`print`, `sum`, the `Instance` factory overloads and the `MyDelegate` wrapper.
-/

namespace CPP11

/-! ## `print`: recursive expansion of a parameter pack -/

/-- What a call of `print` leaves behind: the lines written to `cout` (each `<< endl`
ends one line) and the argument packs of the recursive calls `print(rest...)` that
were made, in call order. -/
structure PrintRun (V : Type) where
  out : List String
  calls : List (List V)
deriving DecidableEq, Repr

/-- The two overloads of `print` (`main.cpp`, lines 100-108). `sh` is what `cout << head`
writes for a pack element.

* `void print()` writes the line `empty`;
* `void print(T head, Args... rest)` writes the line `param <head>` and calls
  `print(rest...)`. -/
def print {V : Type} (sh : V → String) : List V → PrintRun V → PrintRun V
  | [], r => { r with out := r.out ++ ["empty"] }
  | head :: rest, r =>
      print sh rest { out := r.out ++ ["param " ++ sh head], calls := r.calls ++ [rest] }

/-! ## `sum`: recursive expansion with an explicit first template argument -/

/-- The two overloads of `sum` (`main.cpp`, lines 121-129). `add` is `operator+` of `T`.
In `first + sum<T>(rest...)` the template argument `T` is given explicitly, so the head
of `rest` initialises a parameter of type `T`: `conv` is that conversion. -/
def sum {T V : Type} (add : T → T → T) (conv : V → T) : T → List V → T
  | t, [] => t
  | first, r :: rest => add first (sum add conv (conv r) rest)

/-- Addition of the unsigned integer type of `w` bits. -/
def addU (w : Nat) (a b : Nat) : Nat := (a + b) % 2 ^ w

/-- Conversion of an unsigned value to the unsigned integer type of `w` bits. -/
def toU (w : Nat) (a : Nat) : Nat := a % 2 ^ w

/-- The value is representable in the signed integer type of `w` bits. -/
def fitsS (w : Nat) (x : Int) : Bool :=
  decide (-(2 ^ (w - 1) : Int) ≤ x) && decide (x < (2 ^ (w - 1) : Int))

/-- Addition of the signed integer type of `w` bits; `none` is undefined behaviour: an
operand that is already undefined, or a result that is not representable. -/
def addS (w : Nat) : Option Int → Option Int → Option Int
  | some a, some b => if fitsS w (a + b) then some (a + b) else none
  | _, _ => none

/-! ## Argument passing

The factory and the delegate only pass arguments on, so what they do is decided by
how C++ initialises a parameter from an argument expression. The model keeps, for
every argument, its type, its value category and its value, and counts the copy and
move constructions of the argument that the initialisations perform.

Not modelled: rvalues of const-qualified type, volatile, and failure of the allocator.
The copy and move constructors of the types of the arguments are taken to return and to
keep the value: what can fail is a constructor of the class constructed, or the member
called. -/

/-- Value category of an argument expression, with the const-qualification of an
lvalue: a named object (`x`), a named object of const-qualified type (`const M x`), an
expiring object (`std::move(x)`), or a temporary (`M{}`, `1`). -/
inductive ValCat where
  | lvalue
  | constLvalue
  | xvalue
  | prvalue
deriving DecidableEq, Repr

/-- What overload resolution and reference binding see of an argument expression:
whether it is an lvalue, a const lvalue, or an rvalue. -/
inductive RefCat where
  | lvalue
  | constLvalue
  | rvalue
deriving DecidableEq, Repr

/-- What overload resolution sees of a value category; an expiring object and a
temporary are both rvalues. -/
def refCat : ValCat → RefCat
  | .lvalue => .lvalue
  | .constLvalue => .constLvalue
  | .xvalue => .rvalue
  | .prvalue => .rvalue

/-- Declared form of a parameter of type `P`: `P`, `P&`, `const P&`, `P&&`. -/
inductive ParamForm where
  | byValue
  | lref
  | constLref
  | rref
deriving DecidableEq, Repr

/-- Copy constructions and move constructions of one argument. -/
structure Counts where
  copies : Nat
  moves : Nat
deriving DecidableEq, Repr

instance : Add Counts := ⟨fun a b => ⟨a.copies + b.copies, a.moves + b.moves⟩⟩

/-- An argument expression at a call site. -/
structure Arg (Ty V : Type) where
  ty : Ty
  cat : ValCat
  val : V
deriving DecidableEq, Repr

/-- The type and the value category of an argument: what decides, at build time,
whether it initialises a parameter. -/
def Arg.sig {Ty V : Type} (a : Arg Ty V) : Ty × ValCat :=
  (a.ty, a.cat)

/-- A declared parameter. -/
structure Param (Ty : Type) where
  ty : Ty
  form : ParamForm
deriving DecidableEq, Repr

/-- What the surrounding program fixes: which implicit conversions between distinct
types exist (each yields a temporary of the target type) and what they do to a value;
which types have a usable copy constructor and which have a move constructor (a type
without a move constructor is copied where it would be moved, a type with neither
cannot be passed by value); and whether the compiler elides the construction of a
by-value parameter from a temporary (C++11 permits either). -/
structure Lang (Ty V : Type) where
  convertible : Ty → Ty → Bool
  convert : Ty → Ty → V → V
  copyable : Ty → Bool
  movable : Ty → Bool
  elide : Bool

/-- How a use fails: `rejected` is a build-time error, `undefined` is undefined
behaviour at run time, `thrown` is an exception that leaves the operation. -/
inductive Failure where
  | rejected
  | undefined
  | thrown
deriving DecidableEq, Repr

deriving instance DecidableEq for Except

/-- How a constructor or a member function ends when it runs: it returns, it throws an
exception, or it has undefined behaviour of its own. -/
inductive Run (α : Type) where
  | returns (a : α)
  | throws
  | undefined
deriving DecidableEq, Repr

/-- The result of a run as the caller sees it: the value returned, or the failure. -/
def Run.toExcept {α : Type} : Run α → Except Failure α
  | .returns a => .ok a
  | .throws => .error .thrown
  | .undefined => .error .undefined

/-- Initialising a by-value parameter `P p` from an expression of type `P`: an lvalue is
copied; an expiring object is moved, or copied when `P` has no move constructor; a
temporary likewise, unless the compiler elides the construction (the constructor must
exist all the same). `none`: ill-formed, the constructor needed does not exist. -/
def byValueCost {Ty V : Type} (L : Lang Ty V) (ty : Ty) : ValCat → Option Counts
  | .lvalue => if L.copyable ty then some ⟨1, 0⟩ else none
  | .constLvalue => if L.copyable ty then some ⟨1, 0⟩ else none
  | .xvalue =>
      if L.movable ty then some ⟨0, 1⟩
      else if L.copyable ty then some ⟨1, 0⟩ else none
  | .prvalue =>
      if L.movable ty then some (if L.elide then ⟨0, 0⟩ else ⟨0, 1⟩)
      else if L.copyable ty then some (if L.elide then ⟨0, 0⟩ else ⟨1, 0⟩) else none

/-- Initialising a parameter of type `ty` and of the given form from an expression of
type `ty`. `P&` binds lvalues that are not const only, `P&&` binds rvalues only,
`const P&` binds everything; binding a reference constructs nothing. `none`: ill-formed. -/
def bindForm {Ty V : Type} (L : Lang Ty V) (ty : Ty) : ParamForm → ValCat → Option Counts
  | .byValue, c => byValueCost L ty c
  | .lref, .lvalue => some ⟨0, 0⟩
  | .lref, _ => none
  | .constLref, _ => some ⟨0, 0⟩
  | .rref, .xvalue => some ⟨0, 0⟩
  | .rref, .prvalue => some ⟨0, 0⟩
  | .rref, _ => none

/-- Initialising the parameter `p` from an argument expression of type `ty` and
category `cat`: whether the call builds, and the constructions made. An argument of
another type is first converted, which yields a temporary of the parameter's type. -/
def bindArg {Ty V : Type} [DecidableEq Ty] (L : Lang Ty V) (p : Param Ty) (ty : Ty)
    (cat : ValCat) : Option Counts :=
  if ty = p.ty then bindForm L p.ty p.form cat
  else if L.convertible ty p.ty then bindForm L p.ty p.form .prvalue
  else none

/-- Initialising a parameter list from the argument expressions, left to right;
ill-formed when the lengths differ or one parameter cannot be initialised. -/
def bindArgs {Ty V : Type} [DecidableEq Ty] (L : Lang Ty V) :
    List (Param Ty) → List (Ty × ValCat) → Option (List Counts)
  | [], [] => some []
  | p :: ps, a :: as =>
      match bindArg L p a.1 a.2, bindArgs L ps as with
      | some k, some ks => some (k :: ks)
      | _, _ => none
  | _, _ => none

/-- The value that reaches parameter `p` when it is initialised from argument `a`:
the argument's value, converted when the types differ. -/
def argValue {Ty V : Type} [DecidableEq Ty] (L : Lang Ty V) (p : Param Ty) (a : Arg Ty V) : V :=
  if a.ty = p.ty then a.val else L.convert a.ty p.ty a.val

/-- The values that reach the parameters, in order. -/
def argValues {Ty V : Type} [DecidableEq Ty] (L : Lang Ty V) (ps : List (Param Ty))
    (args : List (Arg Ty V)) : List V :=
  List.zipWith (argValue L) ps args

/-! ## Construction -/

/-- One constructor of a class `T`: its parameter list, the copies and moves its
mem-initialisers make when they store the parameters, and what it does with the values
of its parameters: it returns the object, it throws (as `classFoo(int)` of `main.cpp`
does), or it has undefined behaviour. A constructor with default arguments, or a
constructor template, stands as one constructor for each parameter list it can be
called with. -/
structure Ctor (Ty V T : Type) where
  params : List (Param Ty)
  body : Counts
  build : List V → Run T

/-- A class `T` as a new-expression sees it: its constructors, the implicit copy and
move constructors included, and overload resolution among them. `resolve` takes the
types of the argument expressions and whether each is an lvalue, a const lvalue or an
rvalue, and gives the index of the constructor C++ selects, `none` when no constructor
is viable or the call is ambiguous. The rules of overload resolution are not derived here: every statement about
all classes holds for every `resolve`. -/
structure ClassDef (Ty V T : Type) where
  ctors : List (Ctor Ty V T)
  resolve : List (Ty × RefCat) → Option Nat

/-- Objects on the free store, by address. -/
abbrev Heap (T : Type) := List T

/-- A directly constructed object `T(a1, ..., an)`, with the constructions counted per
argument (`counts`) and inside the constructor (`body`). -/
structure Built (T : Type) where
  obj : T
  counts : List Counts
  body : Counts
deriving DecidableEq, Repr

/-- Direct construction `T(a1, ..., an)`: overload resolution selects a constructor, its
parameters are initialised from the arguments (an ill-formed initialisation is rejected
at build time, for instance a copy of a type without copy constructor), and the
constructor runs on the values that reach its parameters. -/
def construct {Ty V T : Type} [DecidableEq Ty] (L : Lang Ty V) (cls : ClassDef Ty V T)
    (args : List (Arg Ty V)) : Except Failure (Built T) :=
  match cls.resolve (args.map fun a => (a.ty, refCat a.cat)) with
  | none => .error .rejected
  | some i =>
      match cls.ctors[i]? with
      | none => .error .rejected
      | some c =>
          match bindArgs L c.params (args.map Arg.sig) with
          | none => .error .rejected
          | some ks =>
              match (c.build (argValues L c.params args)).toExcept with
              | .error e => .error e
              | .ok obj => .ok ⟨obj, ks, c.body⟩

/-- Result of a new-expression: the address of the new object, the free store that
holds it, and the constructions counted as in `Built`. -/
structure NewResult (T : Type) where
  ptr : Nat
  heap : Heap T
  counts : List Counts
  body : Counts
deriving DecidableEq, Repr

/-- The new-expression `new T(a1, ..., an)`: the object is constructed at a fresh
address; a failure of the construction is the failure of the new-expression. -/
def opNew {Ty V T : Type} [DecidableEq Ty] (L : Lang Ty V) (cls : ClassDef Ty V T)
    (args : List (Arg Ty V)) (h : Heap T) : Except Failure (NewResult T) :=
  match construct L cls args with
  | .error e => .error e
  | .ok b => .ok ⟨h.length, h ++ [b.obj], b.counts, b.body⟩

/-- Adds, argument by argument, the constructions made before the new-expression. -/
def NewResult.addCounts {T : Type} (ks : List Counts) (r : NewResult T) : NewResult T :=
  { r with counts := List.zipWith (· + ·) ks r.counts }

/-! ## `Instance`: the fixed-arity overloads and the variadic one -/

/-- A function parameter `T0 arg0` whose type is deduced from the argument: `T0` is the
argument's type without its const-qualification, the parameter is initialised by value
(ill-formed when the type cannot be copied or moved as needed), and inside the function
the name `arg0` is an lvalue that is not const. -/
def byValueParam {Ty V : Type} (L : Lang Ty V) (a : Arg Ty V) : Option (Arg Ty V × Counts) :=
  (byValueCost L a.ty a.cat).map fun k => (⟨a.ty, .lvalue, a.val⟩, k)

/-- Overload `template<typename T> T* Instance() { return new T(); }`. -/
def Instance0 {Ty V T : Type} [DecidableEq Ty] (L : Lang Ty V) (cls : ClassDef Ty V T)
    (h : Heap T) : Except Failure (NewResult T) :=
  opNew L cls [] h

/-- Overload `template<typename T, typename T0> T* Instance(T0 arg0) { return new T(arg0); }`. -/
def Instance1 {Ty V T : Type} [DecidableEq Ty] (L : Lang Ty V) (cls : ClassDef Ty V T)
    (a0 : Arg Ty V) (h : Heap T) : Except Failure (NewResult T) :=
  match byValueParam L a0 with
  | some arg0 => (opNew L cls [arg0.1] h).map (NewResult.addCounts [arg0.2])
  | none => .error .rejected

/-- Overload `template<typename T, typename T0, typename T1> T* Instance(T0 arg0, T1 arg1)
{ return new T(arg0, arg1); }`. -/
def Instance2 {Ty V T : Type} [DecidableEq Ty] (L : Lang Ty V) (cls : ClassDef Ty V T)
    (a0 a1 : Arg Ty V) (h : Heap T) : Except Failure (NewResult T) :=
  match byValueParam L a0, byValueParam L a1 with
  | some arg0, some arg1 =>
      (opNew L cls [arg0.1, arg1.1] h).map (NewResult.addCounts [arg0.2, arg1.2])
  | _, _ => .error .rejected

/-- Overload `template<typename T, typename T0, typename T1, typename T2>
T* Instance(T0 arg0, T1 arg1, T2 arg2) { return new T(arg0, arg1, arg2); }`. -/
def Instance3 {Ty V T : Type} [DecidableEq Ty] (L : Lang Ty V) (cls : ClassDef Ty V T)
    (a0 a1 a2 : Arg Ty V) (h : Heap T) : Except Failure (NewResult T) :=
  match byValueParam L a0, byValueParam L a1, byValueParam L a2 with
  | some arg0, some arg1, some arg2 =>
      (opNew L cls [arg0.1, arg1.1, arg2.1] h).map
        (NewResult.addCounts [arg0.2, arg1.2, arg2.2])
  | _, _, _ => .error .rejected

/-- The expression `std::forward<Args>(args)` for a deduced `Args&&... args`: an lvalue
argument deduces `Args = A&` (`const A&` when it is const) and is passed on as the
lvalue it is, an rvalue argument deduces `Args = A` and is passed on as an expiring
object. The type and the value are unchanged. -/
def forward {Ty V : Type} (a : Arg Ty V) : Arg Ty V :=
  match a.cat with
  | .lvalue => a
  | .constLvalue => a
  | .xvalue => a
  | .prvalue => { a with cat := .xvalue }

/-- Overload `template<typename T, typename... Args> T* Instance(Args&&... args)
{ return new T(std::forward<Args>(args)...); }`: every `args` binds by reference
(nothing is constructed) and the pack is expanded in order. -/
def InstanceV {Ty V T : Type} [DecidableEq Ty] (L : Lang Ty V) (cls : ClassDef Ty V T)
    (args : List (Arg Ty V)) (h : Heap T) : Except Failure (NewResult T) :=
  opNew L cls (args.map forward) h

/-- The call `Instance<T>(a1, ..., an)` with all five templates declared, as in
`main.cpp`. Only templates of matching arity are viable; the variadic one is viable for
every arity. By-value and forwarding-reference parameters give conversion sequences of
the same rank, so the tie is broken by partial ordering of the templates, in which a
template without a parameter pack is more specialised than the variadic one: arities
0 to 3 select the fixed-arity overload, every other arity selects the variadic one. -/
def Instance {Ty V T : Type} [DecidableEq Ty] (L : Lang Ty V) (cls : ClassDef Ty V T)
    (args : List (Arg Ty V)) (h : Heap T) : Except Failure (NewResult T) :=
  match args with
  | [] => Instance0 L cls h
  | [a0] => Instance1 L cls a0 h
  | [a0, a1] => Instance2 L cls a0 a1 h
  | [a0, a1, a2] => Instance3 L cls a0 a1 a2 h
  | _ => InstanceV L cls args h

/-! ## `MyDelegate` and `CreateDelegate` -/

/-- What a member function leaves behind when it returns on an object: the value it
returns, the state it leaves the object in, and the lines it has written to `cout`.
Members act on their own object and on `cout` only. -/
structure Effect (T R : Type) where
  ret : R
  self : T
  out : List String
deriving DecidableEq, Repr

/-- A value of the pointer-to-member type `R (T::*)(Args...)`. The parameter list
`Args...` belongs to the type; the designator itself may be null (`fn = none`). The
member designated runs on an object and on the values of its parameters: it returns,
it throws, or it has undefined behaviour of its own, as a signed overflow. -/
structure MemPtr (Ty V T R : Type) where
  sig : List (Param Ty)
  fn : Option (T → List V → Run (Effect T R))

/-- The objects a delegate can point to, by address, and the lines written to `cout`. -/
structure World (T : Type) where
  heap : Heap T
  cout : List String
deriving DecidableEq, Repr

/-- The `class MyDelegate`: the private members `T* m_t` (`none` is the null pointer, an
address outside the heap is a dangling pointer) and `R (T::*m_f)(Args...)`.
`MyDelegate.mk` is the class constructor
`MyDelegate(T* t, R(T::*f)(Args...)) : m_t(t), m_f(f) {}`. -/
structure MyDelegate (Ty V T R : Type) where
  m_t : Option Nat
  m_f : MemPtr Ty V T R

/-- Function `CreateDelegate(T* t, R(T::*f)(Args...)) { return MyDelegate<T, R, Args...>(t, f); }`. -/
def CreateDelegate {Ty V T R : Type} (t : Option Nat) (f : MemPtr Ty V T R) :
    MyDelegate Ty V T R :=
  MyDelegate.mk t f

/-- Result of a member call: the returned value, the world afterwards, and the
constructions counted per argument. -/
structure CallResult (T R : Type) where
  ret : R
  world : World T
  counts : List Counts
deriving DecidableEq, Repr

/-- The member call `(t->*f)(a1, ..., an)`. The parameters of `f` are initialised from
the arguments (ill-formed calls are rejected at build time); at run time a null
designator, a null target or a dangling target is undefined behaviour; otherwise the
member runs on the object at `t`: when it returns, the object is updated in place, when
it fails, its failure is the failure of the call. -/
def callMember {Ty V T R : Type} [DecidableEq Ty] (L : Lang Ty V) (t : Option Nat)
    (f : MemPtr Ty V T R) (args : List (Arg Ty V)) (w : World T) :
    Except Failure (CallResult T R) :=
  match bindArgs L f.sig (args.map Arg.sig) with
  | none => .error .rejected
  | some ks =>
      match f.fn, t with
      | some body, some a =>
          match w.heap[a]? with
          | some obj =>
              match (body obj (argValues L f.sig args)).toExcept with
              | .error e => .error e
              | .ok e => .ok ⟨e.ret, ⟨w.heap.set a e.self, w.cout ++ e.out⟩, ks⟩
          | none => .error .undefined
      | _, _ => .error .undefined

/-- The parameter `Args&& args` of `operator()`, where `Args` is a template parameter of
the class, fixed to the declared parameter type of the member: by reference collapsing
`P&&` for a by-value `P` or a `P&&`, `P&` for `P&`, `const P&` for `const P&`. -/
def callParam {Ty : Type} (p : Param Ty) : Param Ty :=
  match p.form with
  | .byValue => ⟨p.ty, .rref⟩
  | .lref => ⟨p.ty, .lref⟩
  | .constLref => ⟨p.ty, .constLref⟩
  | .rref => ⟨p.ty, .rref⟩

/-- The expression `std::forward<Args>(args)` inside `operator()`: an expiring object
when `Args` is `P` or `P&&`, an lvalue when `Args` is `P&`, a const lvalue when `Args`
is `const P&`; it has the parameter's type and the value bound to `args`. -/
def forwardAs {Ty V : Type} (p : Param Ty) (v : V) : Arg Ty V :=
  match p.form with
  | .byValue => ⟨p.ty, .xvalue, v⟩
  | .lref => ⟨p.ty, .lvalue, v⟩
  | .constLref => ⟨p.ty, .constLvalue, v⟩
  | .rref => ⟨p.ty, .xvalue, v⟩

/-- The argument list of the member call inside `operator()`: the parameters
`Args&&... args`, bound to the arguments of the invocation, forwarded in order. -/
def forwarded {Ty V : Type} [DecidableEq Ty] (L : Lang Ty V) (sig : List (Param Ty))
    (args : List (Arg Ty V)) : List (Arg Ty V) :=
  List.zipWith forwardAs sig (argValues L (sig.map callParam) args)

/-- Result of `operator()`: the delegate after the call and the result of the member call. -/
structure Invoked (Ty V T R : Type) where
  self : MyDelegate Ty V T R
  res : CallResult T R

/-- Member `R operator() (Args&&... args) { return (m_t->*m_f)(std::forward<Args>(args)...); }`:
the arguments initialise the parameters `Args&&...`, which are then forwarded to the
member call on `m_t`. The body assigns to no member of the delegate. -/
def MyDelegate.call {Ty V T R : Type} [DecidableEq Ty] (L : Lang Ty V)
    (d : MyDelegate Ty V T R) (args : List (Arg Ty V)) (w : World T) :
    Except Failure (Invoked Ty V T R) :=
  match bindArgs L (d.m_f.sig.map callParam) (args.map Arg.sig) with
  | none => .error .rejected
  | some ks =>
      match callMember L d.m_t d.m_f (forwarded L d.m_f.sig args) w with
      | .error e => .error e
      | .ok r => .ok ⟨d, { r with counts := List.zipWith (· + ·) ks r.counts }⟩

/-- A sequence of invocations through one delegate, in order; the returned values are
collected. -/
def MyDelegate.callAll {Ty V T R : Type} [DecidableEq Ty] (L : Lang Ty V) :
    MyDelegate Ty V T R → List (List (Arg Ty V)) → World T →
    Except Failure (MyDelegate Ty V T R × List R × World T)
  | d, [], w => .ok (d, [], w)
  | d, args :: rest, w =>
      match d.call L args w with
      | .error e => .error e
      | .ok i =>
          match MyDelegate.callAll L i.self rest i.res.world with
          | .error e => .error e
          | .ok (d', rs, w') => .ok (d', i.res.ret :: rs, w')

/-- The same sequence of member calls made directly on the target, `(t->*f)(...)`. -/
def callMemberAll {Ty V T R : Type} [DecidableEq Ty] (L : Lang Ty V) (t : Option Nat)
    (f : MemPtr Ty V T R) : List (List (Arg Ty V)) → World T →
    Except Failure (List R × World T)
  | [], w => .ok ([], w)
  | args :: rest, w =>
      match callMember L t f args w with
      | .error e => .error e
      | .ok r =>
          match callMemberAll L t f rest r.world with
          | .error e => .error e
          | .ok (rs, w') => .ok (r.ret :: rs, w')

/-! ## The classes of `main.cpp` and of the scenarios -/

/-- Types that occur in the examples. `U` is a type that can be moved and cannot be
copied, as `std::unique_ptr<int>`; `M` is a type that counts its copies and moves. -/
inductive CTy where
  | int
  | double
  | cstr
  | string
  | M
  | U
  | A
  | B
  | Point
  | Holder
  | classFoo
  | Tagged
  | Keeper
  | Peek
deriving DecidableEq, Repr

/-- Values that occur in the examples: an integer, which stands for an `int`, for a
`double` with an integral value, or for the one data member of an object with at most
one data member; and the two coordinates of a `Point`. -/
inductive Val where
  | int (i : Int)
  | point (x y : Int)
deriving DecidableEq, Repr

instance (n : Nat) : OfNat Val n := ⟨Val.int n⟩

/-- The integer a value stands for. -/
def Val.toInt : Val → Int
  | .int i => i
  | .point x _ => x

/-- The largest `int`, `INT_MAX`, for a 32-bit `int`. -/
def INT_MAX : Int := 2147483647

/-- The example language: `int` and `double` convert to each other and a string
literal converts to `std::string` (the value is kept); every type can be copied except
`U` and `Keeper`, every type can be moved. -/
def cxx (elide : Bool) : Lang CTy Val :=
  { convertible := fun a b =>
      decide ((a = CTy.int ∧ b = CTy.double) ∨ (a = CTy.double ∧ b = CTy.int)
        ∨ (a = CTy.cstr ∧ b = CTy.string))
    convert := fun _ _ v => v
    copyable := fun t => decide (t ≠ CTy.U ∧ t ≠ CTy.Keeper)
    movable := fun _ => true
    elide := elide }

/-- A class with one user-declared constructor: its constructors are that one, the
implicit copy constructor `T(const T&)` and the implicit move constructor `T(T&&)`,
which copy or move the `members` counting data members. One argument of the class's own
type `self` selects the copy constructor when it is an lvalue, const or not, and the
move constructor when it is an rvalue; every other argument list selects the
user-declared constructor.
`copy` gives the object that holds the value of the argument. -/
def ClassDef.single {Ty V T : Type} [DecidableEq Ty] (self : Ty) (user : Ctor Ty V T)
    (copy : V → T) (members : Nat) : ClassDef Ty V T :=
  { ctors :=
      [user,
       { params := [⟨self, .constLref⟩], body := ⟨members, 0⟩,
         build := fun vs => match vs with
           | [v] => .returns (copy v)
           | _ => .undefined },
       { params := [⟨self, .rref⟩], body := ⟨0, members⟩,
         build := fun vs => match vs with
           | [v] => .returns (copy v)
           | _ => .undefined }]
    resolve := fun sig => match sig with
      | [(ty, rc)] =>
          if ty = self then (if rc = RefCat.rvalue then some 2 else some 1) else some 0
      | _ => some 0 }

/-- A class `struct Point { int x, y; Point(int x_, int y_) : x(x_), y(y_) {} };`. -/
structure Point where
  x : Int
  y : Int
deriving DecidableEq, Repr

/-- The `Point` that a value stands for. -/
def Point.ofVal : Val → Point
  | .point x y => ⟨x, y⟩
  | .int i => ⟨i, 0⟩

/-- The class `Point`: the constructor `Point(int, int)` and the implicit copy and move
constructors. -/
def Point.ctor : ClassDef CTy Val Point :=
  ClassDef.single .Point
    { params := [⟨.int, .byValue⟩, ⟨.int, .byValue⟩]
      body := ⟨0, 0⟩
      build := fun vs => .returns ⟨(vs.getD 0 0).toInt, (vs.getD 1 0).toInt⟩ }
    Point.ofVal 0

/-- A class `Holder` with a member `M m`, whose value is the value of the `M` it holds. -/
structure Holder where
  m : Int
deriving DecidableEq, Repr

/-- The class `Holder` declared with the constructor `Holder(M&& x) : m(std::move(x)) {}`,
which makes one move into the member; and the implicit copy and move constructors. -/
def Holder.ctorRref : ClassDef CTy Val Holder :=
  ClassDef.single .Holder
    { params := [⟨.M, .rref⟩], body := ⟨0, 1⟩, build := fun vs => .returns ⟨(vs.getD 0 0).toInt⟩ }
    (fun v => ⟨v.toInt⟩) 1

/-- The class `Holder` declared with the constructor `Holder(M x) : m(std::move(x)) {}`,
which makes one move into the member; and the implicit copy and move constructors. -/
def Holder.ctorValue : ClassDef CTy Val Holder :=
  ClassDef.single .Holder
    { params := [⟨.M, .byValue⟩], body := ⟨0, 1⟩, build := fun vs => .returns ⟨(vs.getD 0 0).toInt⟩ }
    (fun v => ⟨v.toInt⟩) 1

/-- The class `struct A { A(int) {} void foo(int i); void foo2(int i, double j); };` of
`main.cpp`, which has no data members. -/
structure A where
deriving DecidableEq, Repr

/-- The class `A`: the constructor `A(int) {}` and the implicit copy and move
constructors. -/
def A.ctor : ClassDef CTy Val A :=
  ClassDef.single .A
    { params := [⟨.int, .byValue⟩], body := ⟨0, 0⟩, build := fun _ => .returns ⟨⟩ }
    (fun _ => ⟨⟩) 0

/-- The class `struct B { B(int, double) {} };` of `main.cpp`, which has no data members. -/
structure B where
deriving DecidableEq, Repr

/-- The class `B`: the constructor `B(int, double) {}` and the implicit copy and move
constructors. -/
def B.ctor : ClassDef CTy Val B :=
  ClassDef.single .B
    { params := [⟨.int, .byValue⟩, ⟨.double, .byValue⟩], body := ⟨0, 0⟩,
      build := fun _ => .returns ⟨⟩ }
    (fun _ => ⟨⟩) 0

/-- The `class classFoo` of `main.cpp`; its one data member `int a` is never assigned
and never read, so an object has no state to observe. -/
structure classFoo where
deriving DecidableEq, Repr

/-- The class `classFoo` of `main.cpp` (lines 26-33): the constructors `classFoo(int x)
{ validate(x); }`, `classFoo() { validate(42); }` and `classFoo(string s) {}`, and the
implicit copy and move constructors. `validate(x)` throws when `x >= INT_MAX`. An
argument of type `int` or `double` selects the first, a string the third, a `classFoo`
the copy or the move constructor. -/
def classFoo.cls : ClassDef CTy Val classFoo :=
  { ctors :=
      [{ params := [⟨.int, .byValue⟩], body := ⟨0, 0⟩,
         build := fun vs =>
           if (vs.getD 0 0).toInt ≥ INT_MAX then .throws else .returns ⟨⟩ },
       { params := [], body := ⟨0, 0⟩, build := fun _ => .returns ⟨⟩ },
       { params := [⟨.string, .byValue⟩], body := ⟨0, 0⟩, build := fun _ => .returns ⟨⟩ },
       { params := [⟨.classFoo, .constLref⟩], body := ⟨0, 0⟩, build := fun _ => .returns ⟨⟩ },
       { params := [⟨.classFoo, .rref⟩], body := ⟨0, 0⟩, build := fun _ => .returns ⟨⟩ }]
    resolve := fun sig => match sig with
      | [] => some 1
      | [(.int, _)] => some 0
      | [(.double, _)] => some 0
      | [(.string, _)] => some 2
      | [(.cstr, _)] => some 2
      | [(.classFoo, rc)] => if rc = RefCat.rvalue then some 4 else some 3
      | _ => none }

/-- A class `struct Tagged { bool moved; Tagged(const M&) : moved(false) {}
Tagged(M&&) : moved(true) {} };` with two constructors for an `M`. -/
structure Tagged where
  moved : Bool
deriving DecidableEq, Repr

/-- The class `Tagged`: an lvalue `M` selects `Tagged(const M&)`, an rvalue `M` selects
`Tagged(M&&)`, a `Tagged` the implicit copy or move constructor. -/
def Tagged.cls : ClassDef CTy Val Tagged :=
  { ctors :=
      [{ params := [⟨.M, .constLref⟩], body := ⟨0, 0⟩, build := fun _ => .returns ⟨false⟩ },
       { params := [⟨.M, .rref⟩], body := ⟨0, 0⟩, build := fun _ => .returns ⟨true⟩ },
       { params := [⟨.Tagged, .constLref⟩], body := ⟨0, 0⟩,
         build := fun vs => .returns ⟨decide ((vs.getD 0 0).toInt = 1)⟩ },
       { params := [⟨.Tagged, .rref⟩], body := ⟨0, 0⟩,
         build := fun vs => .returns ⟨decide ((vs.getD 0 0).toInt = 1)⟩ }]
    resolve := fun sig => match sig with
      | [(.M, rc)] => if rc = RefCat.rvalue then some 1 else some 0
      | [(.Tagged, rc)] => if rc = RefCat.rvalue then some 3 else some 2
      | _ => none }

/-- A class `struct Keeper { U u; Keeper(U x) : u(std::move(x)) {} };` that keeps a
move-only `U`, as `std::unique_ptr<int>`. -/
structure Keeper where
  u : Int
deriving DecidableEq, Repr

/-- The class `Keeper`: the constructor `Keeper(U x)` and the implicit move constructor;
the implicit copy constructor is deleted, so an lvalue `Keeper` selects nothing usable. -/
def Keeper.cls : ClassDef CTy Val Keeper :=
  { ctors :=
      [{ params := [⟨.U, .byValue⟩], body := ⟨0, 1⟩,
         build := fun vs => .returns ⟨(vs.getD 0 0).toInt⟩ },
       { params := [⟨.Keeper, .rref⟩], body := ⟨0, 1⟩,
         build := fun vs => .returns ⟨(vs.getD 0 0).toInt⟩ }]
    resolve := fun sig => match sig with
      | [(.Keeper, rc)] => if rc = RefCat.rvalue then some 1 else none
      | [_] => some 0
      | _ => none }

/-- A class `struct Peek { int v; Peek(U& u) : v(*u) {} };` that reads a move-only `U`,
as `std::unique_ptr<int>`, through a reference. -/
structure Peek where
  v : Int
deriving DecidableEq, Repr

/-- The class `Peek`: the constructor `Peek(U& u)` and the implicit copy and move
constructors. -/
def Peek.cls : ClassDef CTy Val Peek :=
  ClassDef.single .Peek
    { params := [⟨.U, .lref⟩], body := ⟨0, 0⟩, build := fun vs => .returns ⟨(vs.getD 0 0).toInt⟩ }
    (fun v => ⟨v.toInt⟩) 0

/-- Member `void A::foo(int i) { cout << i << endl; }`. -/
def A.foo : MemPtr CTy Val A Unit :=
  { sig := [⟨.int, .byValue⟩]
    fn := some fun self vs => .returns ⟨(), self, [toString (vs.getD 0 0).toInt]⟩ }

/-- A class `struct C { int v; void set(int x) { v = x; } int add(int a, int b)
{ return a + b; } };`. -/
structure C where
  v : Int
deriving DecidableEq, Repr

/-- Member `void C::set(int x) { v = x; }`. -/
def C.set : MemPtr CTy Val C Unit :=
  { sig := [⟨.int, .byValue⟩]
    fn := some fun _ vs => .returns ⟨(), ⟨(vs.getD 0 0).toInt⟩, []⟩ }

/-- Member `int C::add(int a, int b) { return a + b; }`, for a 32-bit `int`: a sum that
is not representable is undefined behaviour. -/
def C.add : MemPtr CTy Val C Int :=
  { sig := [⟨.int, .byValue⟩, ⟨.int, .byValue⟩]
    fn := some fun self vs =>
      if fitsS 32 ((vs.getD 0 0).toInt + (vs.getD 1 0).toInt) then
        .returns ⟨(vs.getD 0 0).toInt + (vs.getD 1 0).toInt, self, []⟩
      else .undefined }

/-- A null pointer to member of type `void (C::*)(int)`. -/
def C.nullMember : MemPtr CTy Val C Unit :=
  { sig := [⟨.int, .byValue⟩], fn := none }

/-- A class `Sink` without data members. -/
structure Sink where
deriving DecidableEq, Repr

/-- Member `void Sink::take(M m) {}`: a member whose parameter is of the counting type `M`. -/
def Sink.take : MemPtr CTy Val Sink Unit :=
  { sig := [⟨.M, .byValue⟩], fn := some fun self _ => .returns ⟨(), self, []⟩ }

/-! ## Notions used to state the properties -/

/-- The invocation `d(a1, ..., an)` builds: the arguments initialise the parameters
`Args&&...` of `operator()`, and the forwarded parameters initialise the parameters of
the member. -/
def MyDelegate.accepts {Ty V T R : Type} [DecidableEq Ty] (L : Lang Ty V)
    (d : MyDelegate Ty V T R) (args : List (Arg Ty V)) : Bool :=
  (bindArgs L (d.m_f.sig.map callParam) (args.map Arg.sig)).isSome
    && (bindArgs L d.m_f.sig ((forwarded L d.m_f.sig args).map Arg.sig)).isSome

/-- What a member call lets its caller observe: the returned value and the world
afterwards. -/
def CallResult.observed {T R : Type} (r : CallResult T R) : R × World T :=
  (r.ret, r.world)

/-- The object a new-expression yields: its address and the heap that holds it. -/
def NewResult.object {T : Type} (r : NewResult T) : Nat × Heap T :=
  (r.ptr, r.heap)

/-- A named object that holds the value of the argument: an lvalue, not const, of the
argument's type. -/
def asLvalue {Ty V : Type} (a : Arg Ty V) : Arg Ty V :=
  ⟨a.ty, .lvalue, a.val⟩

/-- The argument can initialise a by-value parameter of its own type. -/
def passable {Ty V : Type} (L : Lang Ty V) (a : Arg Ty V) : Bool :=
  (byValueCost L a.ty a.cat).isSome

/-- The fixed-arity overload of `Instance` for an argument list of arity 0 to 3; there
is none for a longer list. -/
def InstanceFixed {Ty V T : Type} [DecidableEq Ty] (L : Lang Ty V) (cls : ClassDef Ty V T)
    (args : List (Arg Ty V)) (h : Heap T) : Option (Except Failure (NewResult T)) :=
  match args with
  | [] => some (Instance0 L cls h)
  | [a0] => some (Instance1 L cls a0 h)
  | [a0, a1] => some (Instance2 L cls a0 a1 h)
  | [a0, a1, a2] => some (Instance3 L cls a0 a1 a2 h)
  | _ => none

/-- All copies and moves of a construction: those of the arguments and those made
inside the constructor. -/
def Counts.total (ks : List Counts) (body : Counts) : Counts :=
  ks.foldr (· + ·) body

/-- The pointer refers to a live object of the heap. -/
def live {T : Type} (t : Option Nat) (h : Heap T) : Bool :=
  match t with
  | none => false
  | some a => decide (a < h.length)

/-! ## Argument passing: basic facts -/

theorem forward_ty {Ty V : Type} (a : Arg Ty V) : (forward a).ty = a.ty := by
  unfold forward
  cases a.cat <;> rfl

theorem forward_val {Ty V : Type} (a : Arg Ty V) : (forward a).val = a.val := by
  unfold forward
  cases a.cat <;> rfl

theorem forward_refCat {Ty V : Type} (a : Arg Ty V) :
    refCat (forward a).cat = refCat a.cat := by
  obtain ⟨ty, cat, val⟩ := a
  cases cat <;> rfl

theorem argValue_forward {Ty V : Type} [DecidableEq Ty] (L : Lang Ty V) (p : Param Ty)
    (a : Arg Ty V) : argValue L p (forward a) = argValue L p a := by
  unfold argValue
  rw [forward_ty, forward_val]

theorem argValues_forward {Ty V : Type} [DecidableEq Ty] (L : Lang Ty V) :
    ∀ (ps : List (Param Ty)) (as : List (Arg Ty V)),
      argValues L ps (as.map forward) = argValues L ps as
  | [], _ => by simp [argValues]
  | _ :: _, [] => by simp [argValues]
  | p :: ps, a :: as => by
      have ih := argValues_forward L ps as
      unfold argValues at ih ⊢
      simp [argValue_forward, ih]

theorem byValueCost_rvalue_isSome {Ty V : Type} (L : Lang Ty V) (ty : Ty) :
    (byValueCost L ty .xvalue).isSome = (byValueCost L ty .prvalue).isSome := by
  unfold byValueCost
  cases L.movable ty <;> cases L.copyable ty <;> simp

theorem bindArg_forward_isSome {Ty V : Type} [DecidableEq Ty] (L : Lang Ty V)
    (p : Param Ty) (a : Arg Ty V) :
    (bindArg L p (forward a).ty (forward a).cat).isSome
      = (bindArg L p a.ty a.cat).isSome := by
  obtain ⟨ty, cat, val⟩ := a
  cases cat <;> try rfl
  show (bindArg L p ty .xvalue).isSome = (bindArg L p ty .prvalue).isSome
  unfold bindArg
  by_cases hty : ty = p.ty
  · simp only [hty, if_true]
    cases p.form <;> simp [bindForm, byValueCost_rvalue_isSome]
  · simp only [hty, if_false]

theorem bindArgs_forward_isSome {Ty V : Type} [DecidableEq Ty] (L : Lang Ty V) :
    ∀ (ps : List (Param Ty)) (as : List (Arg Ty V)),
      (bindArgs L ps ((as.map forward).map Arg.sig)).isSome
        = (bindArgs L ps (as.map Arg.sig)).isSome
  | [], [] => rfl
  | [], _ :: _ => rfl
  | _ :: _, [] => rfl
  | p :: ps, a :: as => by
      have h1 := bindArg_forward_isSome L p a
      have h2 := bindArgs_forward_isSome L ps as
      simp only [List.map_cons]
      unfold bindArgs
      simp only [Arg.sig] at h1 h2 ⊢
      cases hx : bindArg L p (forward a).ty (forward a).cat <;>
        cases hy : bindArg L p a.ty a.cat <;>
        cases hxs : bindArgs L ps (List.map Arg.sig (List.map forward as)) <;>
        cases hys : bindArgs L ps (List.map Arg.sig as) <;>
        simp_all [Arg.sig]

theorem resolveSig_forward {Ty V : Type} (as : List (Arg Ty V)) :
    (as.map forward).map (fun a => (a.ty, refCat a.cat))
      = as.map (fun a => (a.ty, refCat a.cat)) := by
  induction as with
  | nil => rfl
  | cons a as ih => simp [forward_ty, forward_refCat, ih]

/-- The variadic overload passes on what direct construction receives, up to the
elision of a temporary: the same constructor is selected, it is accepted or rejected
alike, and it runs on the same values. -/
theorem construct_forward {Ty V T : Type} [DecidableEq Ty] (L : Lang Ty V)
    (cls : ClassDef Ty V T) (args : List (Arg Ty V)) :
    (construct L cls (args.map forward)).map (fun b => b.obj)
      = (construct L cls args).map (fun b => b.obj) := by
  unfold construct
  rw [resolveSig_forward]
  cases cls.resolve (args.map fun a => (a.ty, refCat a.cat)) with
  | none => rfl
  | some i =>
      simp only []
      cases cls.ctors[i]? with
      | none => rfl
      | some c =>
          simp only []
          have hs := bindArgs_forward_isSome L c.params args
          rw [argValues_forward]
          cases hx : bindArgs L c.params ((args.map forward).map Arg.sig) with
          | none =>
              cases hy : bindArgs L c.params (args.map Arg.sig) with
              | none => rfl
              | some ks => rw [hx, hy] at hs; simp at hs
          | some ks =>
              cases hy : bindArgs L c.params (args.map Arg.sig) with
              | none => rw [hx, hy] at hs; simp at hs
              | some ks2 =>
                  simp only []
                  cases (c.build (argValues L c.params args)).toExcept <;> rfl

theorem opNew_forward {Ty V T : Type} [DecidableEq Ty] (L : Lang Ty V)
    (cls : ClassDef Ty V T) (args : List (Arg Ty V)) (h : Heap T) :
    (opNew L cls (args.map forward) h).map NewResult.object
      = (construct L cls args).map fun b => (h.length, h ++ [b.obj]) := by
  have hf := construct_forward L cls args
  unfold opNew
  cases hx : construct L cls (args.map forward) with
  | error e =>
      cases hy : construct L cls args with
      | error e2 => rw [hx, hy] at hf; simpa [Except.map] using hf
      | ok b2 => rw [hx, hy] at hf; simp [Except.map] at hf
  | ok b =>
      cases hy : construct L cls args with
      | error e2 => rw [hx, hy] at hf; simp [Except.map] at hf
      | ok b2 =>
          rw [hx, hy] at hf
          simp only [Except.map, Except.ok.injEq] at hf
          simp [Except.map, NewResult.object, hf]

theorem map_addCounts_object {T : Type} (x : Except Failure (NewResult T))
    (ks : List Counts) :
    (x.map (NewResult.addCounts ks)).map NewResult.object = x.map NewResult.object := by
  cases x <;> rfl

/-- The variadic overload accepts exactly the argument lists from which `T` can be
constructed directly, fails as direct construction fails, and yields the directly
constructed object at a fresh address. -/
theorem InstanceV_eq_direct {Ty V T : Type} [DecidableEq Ty] (L : Lang Ty V)
    (cls : ClassDef Ty V T) (args : List (Arg Ty V)) (h : Heap T) :
    (InstanceV L cls args h).map NewResult.object
      = (construct L cls args).map fun b => (h.length, h ++ [b.obj]) :=
  opNew_forward L cls args h

theorem InstanceFixed_eq_Instance {Ty V T : Type} [DecidableEq Ty] (L : Lang Ty V)
    (cls : ClassDef Ty V T) (args : List (Arg Ty V)) (h : Heap T)
    (x : Except Failure (NewResult T)) (hx : InstanceFixed L cls args h = some x) :
    Instance L cls args h = x := by
  unfold InstanceFixed at hx
  unfold Instance
  split at hx <;> simp_all

theorem InstanceFixed_none {Ty V T : Type} [DecidableEq Ty] (L : Lang Ty V)
    (cls : ClassDef Ty V T) (args : List (Arg Ty V)) (h : Heap T)
    (hx : InstanceFixed L cls args h = none) :
    Instance L cls args h = InstanceV L cls args h := by
  unfold InstanceFixed at hx
  unfold Instance
  split at hx <;> simp_all

/-! ## The fixed-arity overloads -/

theorem forward_asLvalue {Ty V : Type} (a : Arg Ty V) : forward (asLvalue a) = asLvalue a :=
  rfl

theorem asLvalue_of_lvalue {Ty V : Type} (a : Arg Ty V) (h : a.cat = .lvalue) :
    asLvalue a = a := by
  obtain ⟨ty, cat, val⟩ := a
  simp only at h
  subst h
  rfl

theorem passable_of_lvalue {Ty V : Type} (L : Lang Ty V) (a : Arg Ty V)
    (h : a.cat = .lvalue) (hc : L.copyable a.ty = true) : passable L a = true := by
  unfold passable byValueCost
  rw [h]
  simp [hc]

/-- The fixed-arity overload is rejected when an argument cannot initialise its by-value
parameter, and otherwise yields the object that the variadic overload yields from
lvalues that hold the values of the arguments. -/
theorem InstanceFixed_object {Ty V T : Type} [DecidableEq Ty] (L : Lang Ty V)
    (cls : ClassDef Ty V T) (args : List (Arg Ty V)) (h : Heap T)
    (x : Except Failure (NewResult T)) (hx : InstanceFixed L cls args h = some x) :
    x.map NewResult.object
      = if args.all (passable L) then
          (InstanceV L cls (args.map asLvalue) h).map NewResult.object
        else .error .rejected := by
  unfold InstanceFixed at hx
  split at hx
  · simp only [Option.some.injEq] at hx
    subst hx
    rfl
  · rename_i a0
    simp only [Option.some.injEq] at hx
    subst hx
    unfold Instance1 byValueParam InstanceV
    simp only [List.all_cons, List.all_nil, Bool.and_true, passable, List.map_cons,
      List.map_nil, forward_asLvalue]
    cases h0 : byValueCost L a0.ty a0.cat with
    | none => rfl
    | some k0 =>
        simp only [Option.map_some', Option.isSome_some, if_true]
        exact map_addCounts_object _ _
  · rename_i a0 a1
    simp only [Option.some.injEq] at hx
    subst hx
    unfold Instance2 byValueParam InstanceV
    simp only [List.all_cons, List.all_nil, Bool.and_true, passable, List.map_cons,
      List.map_nil, forward_asLvalue]
    cases h0 : byValueCost L a0.ty a0.cat with
    | none => rfl
    | some k0 =>
        cases h1 : byValueCost L a1.ty a1.cat with
        | none => rfl
        | some k1 =>
            simp only [Option.map_some', Option.isSome_some, Bool.and_self, if_true]
            exact map_addCounts_object _ _
  · rename_i a0 a1 a2
    simp only [Option.some.injEq] at hx
    subst hx
    unfold Instance3 byValueParam InstanceV
    simp only [List.all_cons, List.all_nil, Bool.and_true, passable, List.map_cons,
      List.map_nil, forward_asLvalue]
    cases h0 : byValueCost L a0.ty a0.cat with
    | none => rfl
    | some k0 =>
        cases h1 : byValueCost L a1.ty a1.cat with
        | none => rfl
        | some k1 =>
            cases h2 : byValueCost L a2.ty a2.cat with
            | none => simp; rfl
            | some k2 =>
                simp only [Option.map_some', Option.isSome_some, Bool.and_self, if_true]
                exact map_addCounts_object _ _
  · simp at hx

/-- From lvalue arguments of types that can be copied, the fixed-arity overload yields
the object that the variadic overload yields. -/
theorem InstanceFixed_lvalues {Ty V T : Type} [DecidableEq Ty] (L : Lang Ty V)
    (cls : ClassDef Ty V T) (args : List (Arg Ty V)) (h : Heap T)
    (x : Except Failure (NewResult T)) (hx : InstanceFixed L cls args h = some x)
    (hl : ∀ a ∈ args, a.cat = .lvalue ∧ L.copyable a.ty = true) :
    x.map NewResult.object = (InstanceV L cls args h).map NewResult.object := by
  rw [InstanceFixed_object L cls args h x hx]
  have h1 : args.all (passable L) = true := by
    rw [List.all_eq_true]
    intro a ha
    exact passable_of_lvalue L a (hl a ha).1 (hl a ha).2
  have h2 : args.map asLvalue = args := by
    conv => rhs; rw [← List.map_id args]
    apply List.map_congr_left
    intro a ha
    exact asLvalue_of_lvalue a (hl a ha).1
  rw [h1, h2]
  rfl

/-- From lvalue arguments of types that can be copied, the call `Instance<T>(args...)`
is accepted exactly when `T` can be constructed from them, fails as direct construction
fails, and yields the directly constructed object. -/
theorem Instance_lvalues_eq_direct {Ty V T : Type} [DecidableEq Ty] (L : Lang Ty V)
    (cls : ClassDef Ty V T) (args : List (Arg Ty V)) (h : Heap T)
    (hl : ∀ a ∈ args, a.cat = .lvalue ∧ L.copyable a.ty = true) :
    (Instance L cls args h).map NewResult.object
      = (construct L cls args).map fun b => (h.length, h ++ [b.obj]) := by
  rw [← InstanceV_eq_direct]
  cases hx : InstanceFixed L cls args h with
  | none => rw [InstanceFixed_none L cls args h hx]
  | some x =>
      rw [InstanceFixed_eq_Instance L cls args h x hx]
      exact InstanceFixed_lvalues L cls args h x hx hl

/-! ## Build-time rejection and run-time failure of `Instance` -/

theorem callParam_ty {Ty : Type} (p : Param Ty) : (callParam p).ty = p.ty := by
  unfold callParam
  cases p.form <;> rfl

theorem forwardAs_ty {Ty V : Type} (p : Param Ty) (v : V) : (forwardAs p v).ty = p.ty := by
  unfold forwardAs
  cases p.form <;> rfl

theorem forwardAs_val {Ty V : Type} (p : Param Ty) (v : V) : (forwardAs p v).val = v := by
  unfold forwardAs
  cases p.form <;> rfl

theorem argValue_callParam {Ty V : Type} [DecidableEq Ty] (L : Lang Ty V) (p : Param Ty)
    (a : Arg Ty V) : argValue L (callParam p) a = argValue L p a := by
  unfold argValue
  rw [callParam_ty]

theorem argValue_forwardAs {Ty V : Type} [DecidableEq Ty] (L : Lang Ty V) (p : Param Ty)
    (v : V) : argValue L p (forwardAs p v) = v := by
  unfold argValue
  rw [forwardAs_ty, forwardAs_val]
  simp

/-- One argument accepted by `operator()`: the forwarded parameter initialises the
member's parameter exactly when the argument itself does. -/
theorem bindArg_callParam {Ty V : Type} [DecidableEq Ty] (L : Lang Ty V) (p : Param Ty)
    (ty : Ty) (cat : ValCat) (v : V) (k : Counts)
    (hk : bindArg L (callParam p) ty cat = some k) :
    (bindArg L p (forwardAs p v).ty (forwardAs p v).cat).isSome
      = (bindArg L p ty cat).isSome := by
  obtain ⟨pty, form⟩ := p
  have hr := byValueCost_rvalue_isSome L pty
  by_cases hty : ty = pty
  · subst hty
    cases form <;> cases cat <;>
      simp_all [bindArg, callParam, forwardAs, bindForm]
  · by_cases hcv : L.convertible ty pty = true
    · cases form <;>
        simp_all [bindArg, callParam, forwardAs, bindForm]
    · cases form <;> simp_all [bindArg, callParam, forwardAs, bindForm]

theorem forwarded_cons {Ty V : Type} [DecidableEq Ty] (L : Lang Ty V) (p : Param Ty)
    (ps : List (Param Ty)) (a : Arg Ty V) (as : List (Arg Ty V)) :
    forwarded L (p :: ps) (a :: as)
      = forwardAs p (argValue L p a) :: forwarded L ps as := by
  unfold forwarded argValues
  simp [argValue_callParam]

/-- An argument list accepted by `operator()`: the forwarded parameters initialise the
member's parameters exactly when the arguments themselves do, and the same values
reach the member. -/
theorem forwarded_facts {Ty V : Type} [DecidableEq Ty] (L : Lang Ty V) :
    ∀ (ps : List (Param Ty)) (as : List (Arg Ty V)) (ks : List Counts),
      bindArgs L (ps.map callParam) (as.map Arg.sig) = some ks →
      (bindArgs L ps ((forwarded L ps as).map Arg.sig)).isSome
          = (bindArgs L ps (as.map Arg.sig)).isSome
        ∧ argValues L ps (forwarded L ps as) = argValues L ps as
  | [], [], _, _ => ⟨rfl, rfl⟩
  | [], _ :: _, ks, h => by simp [bindArgs] at h
  | _ :: _, [], ks, h => by simp [bindArgs] at h
  | p :: ps, a :: as, ks, h => by
      simp only [List.map_cons] at h
      unfold bindArgs at h
      cases h1 : bindArg L (callParam p) (Arg.sig a).1 (Arg.sig a).2 with
      | none => simp [h1] at h
      | some k =>
          cases h2 : bindArgs L (ps.map callParam) (as.map Arg.sig) with
          | none => simp [h1, h2] at h
          | some ks0 =>
              have ih := forwarded_facts L ps as ks0 h2
              have hp := bindArg_callParam L p a.ty a.cat (argValue L p a) k h1
              rw [forwarded_cons]
              constructor
              · simp only [List.map_cons]
                unfold bindArgs
                simp only [Arg.sig] at hp ih ⊢
                cases hx : bindArg L p (forwardAs p (argValue L p a)).ty
                    (forwardAs p (argValue L p a)).cat <;>
                  cases hy : bindArg L p a.ty a.cat <;>
                  cases hxs : bindArgs L ps (List.map Arg.sig (forwarded L ps as)) <;>
                  cases hys : bindArgs L ps (List.map Arg.sig as) <;>
                  simp_all [Arg.sig]
              · have ih2 := ih.2
                unfold argValues at ih2 ⊢
                simp [argValue_forwardAs, ih2]

theorem call_self {Ty V T R : Type} [DecidableEq Ty] (L : Lang Ty V)
    (d : MyDelegate Ty V T R) (args : List (Arg Ty V)) (w : World T) (i : Invoked Ty V T R)
    (hi : d.call L args w = .ok i) : i.self = d := by
  unfold MyDelegate.call at hi
  cases hx : bindArgs L (d.m_f.sig.map callParam) (args.map Arg.sig) with
  | none => simp [hx] at hi
  | some ks =>
      simp only [hx] at hi
      cases hc : callMember L d.m_t d.m_f (forwarded L d.m_f.sig args) w with
      | error e => simp [hc] at hi
      | ok r =>
          simp [hc] at hi
          rw [← hi]

/-- The member call inside `operator()` lets observe what the direct member call lets
observe, once the arguments initialise the parameters of `operator()`. -/
theorem callMember_forwarded {Ty V T R : Type} [DecidableEq Ty] (L : Lang Ty V)
    (t : Option Nat) (f : MemPtr Ty V T R) (args : List (Arg Ty V)) (w : World T)
    (ks : List Counts) (hx : bindArgs L (f.sig.map callParam) (args.map Arg.sig) = some ks) :
    (callMember L t f (forwarded L f.sig args) w).map CallResult.observed
      = (callMember L t f args w).map CallResult.observed := by
  obtain ⟨hs, hv⟩ := forwarded_facts L f.sig args ks hx
  unfold callMember
  rw [hv]
  cases hi : bindArgs L f.sig ((forwarded L f.sig args).map Arg.sig) with
  | none =>
      cases hd : bindArgs L f.sig (args.map Arg.sig) with
      | none => rfl
      | some kd => rw [hi, hd] at hs; simp at hs
  | some ki =>
      cases hd : bindArgs L f.sig (args.map Arg.sig) with
      | none => rw [hi, hd] at hs; simp at hs
      | some kd =>
          simp only []
          cases f.fn with
          | none => rfl
          | some body =>
              cases t with
              | none => rfl
              | some a =>
                  simp only []
                  cases hh : w.heap[a]? with
                  | none => rfl
                  | some obj =>
                      simp only []
                      cases (body obj (argValues L f.sig args)).toExcept <;> rfl

/-- An invocation through the delegate whose arguments initialise the parameters of
`operator()` returns what the direct member call returns and leaves the world as the
direct call leaves it; it fails as the direct call fails. -/
theorem call_observed_of_bound {Ty V T R : Type} [DecidableEq Ty] (L : Lang Ty V)
    (d : MyDelegate Ty V T R) (args : List (Arg Ty V)) (w : World T) (ks : List Counts)
    (hx : bindArgs L (d.m_f.sig.map callParam) (args.map Arg.sig) = some ks) :
    (d.call L args w).map (fun i => i.res.observed)
      = (callMember L d.m_t d.m_f args w).map CallResult.observed := by
  rw [← callMember_forwarded L d.m_t d.m_f args w ks hx]
  unfold MyDelegate.call
  simp only [hx]
  cases callMember L d.m_t d.m_f (forwarded L d.m_f.sig args) w <;> rfl

/-- An accepted invocation through the delegate returns what the direct member call
returns and leaves the world as the direct call leaves it (failures included). -/
theorem call_observed {Ty V T R : Type} [DecidableEq Ty] (L : Lang Ty V)
    (d : MyDelegate Ty V T R) (args : List (Arg Ty V)) (w : World T)
    (hacc : d.accepts L args = true) :
    (d.call L args w).map (fun i => i.res.observed)
      = (callMember L d.m_t d.m_f args w).map CallResult.observed := by
  unfold MyDelegate.accepts at hacc
  cases hx : bindArgs L (d.m_f.sig.map callParam) (args.map Arg.sig) with
  | none => simp [hx] at hacc
  | some ks => exact call_observed_of_bound L d args w ks hx

theorem accepts_direct {Ty V T R : Type} [DecidableEq Ty] (L : Lang Ty V)
    (d : MyDelegate Ty V T R) (args : List (Arg Ty V)) (hacc : d.accepts L args = true) :
    (bindArgs L d.m_f.sig (args.map Arg.sig)).isSome = true := by
  unfold MyDelegate.accepts at hacc
  cases hx : bindArgs L (d.m_f.sig.map callParam) (args.map Arg.sig) with
  | none => simp [hx] at hacc
  | some ks =>
      rw [← (forwarded_facts L d.m_f.sig args ks hx).1]
      simp [hx] at hacc
      exact hacc

theorem call_rejected_of_not_accepts {Ty V T R : Type} [DecidableEq Ty] (L : Lang Ty V)
    (d : MyDelegate Ty V T R) (args : List (Arg Ty V)) (w : World T)
    (hacc : d.accepts L args = false) : d.call L args w = .error .rejected := by
  unfold MyDelegate.accepts at hacc
  unfold MyDelegate.call
  cases hx : bindArgs L (d.m_f.sig.map callParam) (args.map Arg.sig) with
  | none => rfl
  | some ks =>
      simp only [hx, Option.isSome_some, Bool.true_and] at hacc
      have : callMember L d.m_t d.m_f (forwarded L d.m_f.sig args) w = .error .rejected := by
        unfold callMember
        cases hi : bindArgs L d.m_f.sig ((forwarded L d.m_f.sig args).map Arg.sig) with
        | none => rfl
        | some ki => simp [hi] at hacc
      simp [this]

theorem callAll_self {Ty V T R : Type} [DecidableEq Ty] (L : Lang Ty V) :
    ∀ (argss : List (List (Arg Ty V))) (d : MyDelegate Ty V T R) (w : World T)
      (d' : MyDelegate Ty V T R) (rs : List R) (w' : World T),
      d.callAll L argss w = .ok (d', rs, w') → d' = d
  | [], d, w, d', rs, w', h => by
      simp [MyDelegate.callAll] at h
      exact h.1.symm
  | args :: rest, d, w, d', rs, w', h => by
      unfold MyDelegate.callAll at h
      cases hc : d.call L args w with
      | error e => simp [hc] at h
      | ok i =>
          simp only [hc] at h
          cases hr : MyDelegate.callAll L i.self rest i.res.world with
          | error e => simp [hr] at h
          | ok x =>
              obtain ⟨d2, rs2, w2⟩ := x
              simp [hr] at h
              have h1 := callAll_self L rest i.self i.res.world d2 rs2 w2 hr
              have h2 := call_self L d args w i hc
              rw [← h.1, h1, h2]

theorem callAll_observed {Ty V T R : Type} [DecidableEq Ty] (L : Lang Ty V) :
    ∀ (argss : List (List (Arg Ty V))) (d : MyDelegate Ty V T R) (w : World T),
      (∀ args ∈ argss, d.accepts L args = true) →
      (d.callAll L argss w).map (fun x => (x.2.1, x.2.2))
        = callMemberAll L d.m_t d.m_f argss w
  | [], d, w, _ => rfl
  | args :: rest, d, w, hacc => by
      have h1 := call_observed L d args w (hacc args (by simp))
      unfold MyDelegate.callAll callMemberAll
      cases hc : d.call L args w with
      | error e =>
          rw [hc] at h1
          cases hm : callMember L d.m_t d.m_f args w with
          | error e2 =>
              rw [hm] at h1
              simp [Except.map] at h1
              simp [Except.map, h1]
          | ok r => rw [hm] at h1; simp [Except.map] at h1
      | ok i =>
          rw [hc] at h1
          cases hm : callMember L d.m_t d.m_f args w with
          | error e2 => rw [hm] at h1; simp [Except.map] at h1
          | ok r =>
              rw [hm] at h1
              simp [Except.map, CallResult.observed] at h1
              have hs := call_self L d args w i hc
              have ih := callAll_observed L rest i.self i.res.world
                (by intro a ha; rw [hs]; exact hacc a (by simp [ha]))
              rw [hs] at ih
              simp only []
              rw [← h1.1, ← h1.2, ← ih, hs]
              cases MyDelegate.callAll L d rest i.res.world with
              | error e => rfl
              | ok x => rfl

/-! ## The delegate at run time -/

theorem live_iff {T : Type} (t : Option Nat) (h : Heap T) :
    live t h = true ↔ ∃ a obj, t = some a ∧ h[a]? = some obj := by
  cases t with
  | none => simp [live]
  | some a =>
      constructor
      · intro hl
        simp only [live, decide_eq_true_eq] at hl
        exact ⟨a, h[a], rfl, List.getElem?_eq_getElem hl⟩
      · intro ⟨a2, obj, ht, ho⟩
        simp only [Option.some.injEq] at ht
        subst ht
        simp only [live, decide_eq_true_eq]
        by_contra hn
        rw [List.getElem?_eq_none (by omega)] at ho
        simp at ho

/-- A member call that builds, through a non-null designator on a live target, returns
when the member always returns, and the heap keeps its size. -/
theorem callMember_ok {Ty V T R : Type} [DecidableEq Ty] (L : Lang Ty V) (t : Option Nat)
    (f : MemPtr Ty V T R) (args : List (Arg Ty V)) (w : World T)
    (hi : (bindArgs L f.sig (args.map Arg.sig)).isSome = true) (hl : live t w.heap = true)
    (hf : f.fn.isSome = true)
    (hret : ∀ body, f.fn = some body → ∀ obj vs, ∃ e, body obj vs = .returns e) :
    ∃ r, callMember L t f args w = .ok r ∧ r.world.heap.length = w.heap.length := by
  obtain ⟨a, obj, ht, ho⟩ := (live_iff t w.heap).1 hl
  subst ht
  unfold callMember
  cases hx : bindArgs L f.sig (args.map Arg.sig) with
  | none => simp [hx] at hi
  | some ks =>
      cases hfn : f.fn with
      | none => simp [hfn] at hf
      | some body =>
          obtain ⟨e, he⟩ := hret body hfn obj (argValues L f.sig args)
          simp [ho, he, Run.toExcept]

theorem callMemberAll_ok {Ty V T R : Type} [DecidableEq Ty] (L : Lang Ty V) (t : Option Nat)
    (f : MemPtr Ty V T R) (hf : f.fn.isSome = true)
    (hret : ∀ body, f.fn = some body → ∀ obj vs, ∃ e, body obj vs = .returns e) :
    ∀ (argss : List (List (Arg Ty V))) (w : World T),
      (∀ args ∈ argss, (bindArgs L f.sig (args.map Arg.sig)).isSome = true) →
      live t w.heap = true →
      ∃ rs w', callMemberAll L t f argss w = .ok (rs, w')
        ∧ w'.heap.length = w.heap.length ∧ rs.length = argss.length
  | [], w, _, _ => ⟨[], w, rfl, rfl, rfl⟩
  | args :: rest, w, hi, hl => by
      obtain ⟨r, hr, hlen⟩ := callMember_ok L t f args w (hi args (by simp)) hl hf hret
      have hl2 : live t r.world.heap = true := by
        cases t with
        | none => simp [live] at hl
        | some a => simp only [live, decide_eq_true_eq] at hl ⊢; omega
      obtain ⟨rs, w', hrs, hlen2, hlen3⟩ := callMemberAll_ok L t f hf hret rest r.world
        (fun a ha => hi a (by simp [ha])) hl2
      refine ⟨r.ret :: rs, w', ?_, by omega, by simp [hlen3]⟩
      unfold callMemberAll
      simp [hr, hrs]

theorem print_eq {V : Type} (sh : V → String) (args : List V) (r : PrintRun V) :
    print sh args r
      = ⟨r.out ++ args.map (fun a => "param " ++ sh a) ++ ["empty"],
         r.calls ++ (List.range args.length).map (fun i => args.drop (i + 1))⟩ := by
  induction args generalizing r with
  | nil => simp [print]
  | cons head rest ih =>
      rw [print, ih]
      simp [List.range_succ_eq_map, List.map_map, Function.comp_def]

theorem sum_eq_foldr {T V : Type} (add : T → T → T) (conv : V → T) (first : T)
    (rest : List V) :
    sum add conv first rest
      = List.foldr add (List.getLast (first :: rest.map conv) (List.cons_ne_nil _ _))
          (first :: rest.map conv).dropLast := by
  induction rest generalizing first with
  | nil => simp [sum]
  | cons r rest ih =>
      rw [sum, ih]
      simp [List.dropLast, List.getLast]

theorem sum_int (first : Int) (rest : List Int) :
    sum (· + ·) id first rest = first + rest.sum := by
  induction rest generalizing first with
  | nil => simp [sum]
  | cons r rest ih => rw [sum, ih]; simp

theorem sum_unsigned (w : Nat) (first : Nat) (rest : List Nat) :
    sum (addU w) (toU w) (toU w first) rest = (first + rest.sum) % 2 ^ w := by
  induction rest generalizing first with
  | nil => simp [sum, toU]
  | cons r rest ih =>
      rw [sum, ih]
      simp [addU, toU, List.sum_cons, Nat.add_mod, Nat.add_assoc]

theorem sum_signed (w : Nat) :
    ∀ (as : List Int) (a : Int),
      (∀ k, k ≤ as.length → fitsS w ((a :: as).drop k).sum = true) →
      sum (addS w) some (some a) as = some (a + as.sum)
  | [], a, _ => by simp [sum]
  | b :: bs, a, h => by
      have ih := sum_signed w bs b (fun k hk => by
        have := h (k + 1) (by simp; omega)
        simpa using this)
      have h0 := h 0 (by simp)
      simp only [List.drop_zero, List.sum_cons] at h0
      rw [sum, ih]
      simp [addS, h0]

/-! ## Properties of the specification -/

/-- C1, at the failing input. `Holder` declares the one constructor `Holder(M&& x)`, so a
`Holder` can be constructed from the temporary `M{}`; the call `Instance<Holder>(M{})`
selects the by-value overload `Instance(T0 arg0)`, whose body passes the lvalue `arg0`
to the constructor, and is rejected at build time: it yields no object. The calls
`Instance<Point>(3, 4)` of the scenario and `Instance<A>(1)`, `Instance<B>(1, 2)` of
`main.cpp` do yield the directly constructed object. -/
theorem Instance_rejects_rvalue_constructor (e : Bool) :
    construct (cxx e) Holder.ctorRref [⟨.M, .prvalue, 9⟩] = .ok ⟨⟨9⟩, [⟨0, 0⟩], ⟨0, 1⟩⟩
      ∧ Instance (cxx e) Holder.ctorRref [⟨.M, .prvalue, 9⟩] [] = .error .rejected
      ∧ (Instance (cxx e) Point.ctor [⟨.int, .prvalue, 3⟩, ⟨.int, .prvalue, 4⟩] []).map
          NewResult.object = .ok (0, [⟨3, 4⟩])
      ∧ (construct (cxx e) Point.ctor [⟨.int, .prvalue, 3⟩, ⟨.int, .prvalue, 4⟩]).map
          (fun b => b.obj) = .ok ⟨3, 4⟩
      ∧ (Instance (cxx e) A.ctor [⟨.int, .prvalue, 1⟩] []).map NewResult.object
          = .ok (0, [⟨⟩])
      ∧ (Instance (cxx e) B.ctor [⟨.int, .prvalue, 1⟩, ⟨.int, .prvalue, 2⟩] []).map
          NewResult.object = .ok (0, [⟨⟩]) := by
  cases e <;> decide

/-- C2, at the failing input. For `int C::add(int a, int b)` and an lvalue `a` holding 2,
the direct call `c.add(a, 3)` returns 5 and leaves `c` and `cout` unchanged; the
invocation `CreateDelegate(&c, &C::add)(a, 3)` is rejected at build time, because the
parameter `int&&` of `operator()` does not bind the lvalue: it returns no value. -/
theorem delegate_rejects_lvalue_add (e : Bool) :
    (callMember (cxx e) (some 0) C.add [⟨.int, .lvalue, 2⟩, ⟨.int, .prvalue, 3⟩]
        ⟨[⟨0⟩], []⟩).map CallResult.observed = .ok (5, ⟨[⟨0⟩], []⟩)
      ∧ ((CreateDelegate (some 0) C.add).call (cxx e)
          [⟨.int, .lvalue, 2⟩, ⟨.int, .prvalue, 3⟩] ⟨[⟨0⟩], []⟩).map
          (fun i => i.res.observed) = .error .rejected := by
  cases e <;> decide

/-- C3. The delegate binds the original target and keeps binding it: for every target
pointer, member, world and every sequence of invocations made through one delegate
created by `CreateDelegate` (invocations that `operator()` accepts), the values returned
and the world afterwards, the state of the target included, are those of the same
member calls made directly on the target in the same order, failures included; and when
the target is a live object, the designator is not null and the member always returns,
the sequence runs to its end, with one returned value per invocation and every object
still in place. -/
theorem delegate_binds_original_target {Ty V T R : Type} [DecidableEq Ty] (L : Lang Ty V)
    (t : Option Nat) (f : MemPtr Ty V T R) (argss : List (List (Arg Ty V))) (w : World T)
    (hacc : ∀ args ∈ argss, (CreateDelegate t f).accepts L args = true) :
    ((CreateDelegate t f).callAll L argss w).map (fun x => (x.2.1, x.2.2))
        = callMemberAll L t f argss w
      ∧ (live t w.heap = true → f.fn.isSome = true →
          (∀ body, f.fn = some body → ∀ obj vs, ∃ e, body obj vs = .returns e) →
          ∃ rs w', ((CreateDelegate t f).callAll L argss w).map (fun x => (x.2.1, x.2.2))
              = .ok (rs, w')
            ∧ w'.heap.length = w.heap.length ∧ rs.length = argss.length) := by
  have h1 := callAll_observed L argss (CreateDelegate t f) w hacc
  refine ⟨h1, ?_⟩
  intro hl hf hret
  rw [h1]
  exact callMemberAll_ok L t f hf hret argss w
    (fun a ha => accepts_direct L (CreateDelegate t f) a (hacc a ha)) hl

/-- Witness of C3: with `c.v = 0`, `d = CreateDelegate(&c, &C::set)` and `d(7)`,
afterwards `c.v == 7`, and the invocation returns. -/
theorem delegate_binds_original_target_witness :
    (∀ args ∈ [[(⟨.int, .prvalue, 7⟩ : Arg CTy Val)]],
        (CreateDelegate (some 0) C.set).accepts (cxx true) args = true)
      ∧ ((CreateDelegate (some 0) C.set).callAll (cxx true) [[⟨.int, .prvalue, 7⟩]]
          ⟨[⟨0⟩], []⟩).map (fun x => (x.2.1, x.2.2)) = .ok ([()], ⟨[⟨7⟩], []⟩)
      ∧ live (some 0) [(⟨0⟩ : C)] = true ∧ C.set.fn.isSome = true
      ∧ (∀ body, C.set.fn = some body → ∀ obj vs, ∃ e, body obj vs = .returns e)
      ∧ ∃ rs w', ((CreateDelegate (some 0) C.set).callAll (cxx true)
          [[⟨.int, .prvalue, 7⟩]] ⟨[⟨0⟩], []⟩).map (fun x => (x.2.1, x.2.2)) = .ok (rs, w')
            ∧ w'.heap.length = 1 ∧ rs.length = 1 :=
  ⟨by decide,
   (delegate_binds_original_target (cxx true) (some 0) C.set [[⟨.int, .prvalue, 7⟩]]
      ⟨[⟨0⟩], []⟩ (by decide)).1.trans (by decide),
   by decide, by decide,
   fun body hb obj vs => by
     simp only [C.set, Option.some.injEq] at hb
     subst hb
     exact ⟨_, rfl⟩,
   (delegate_binds_original_target (cxx true) (some 0) C.set [[⟨.int, .prvalue, 7⟩]]
      ⟨[⟨0⟩], []⟩ (by decide)).2 (by decide) (by decide)
      (fun body hb obj vs => by
        simp only [C.set, Option.some.injEq] at hb
        subst hb
        exact ⟨_, rfl⟩)⟩

/-- C5, at the failing input. With `Holder(M x) : m(std::move(x))`, direct construction
`Holder(M{})` makes no copy; the call `Instance<Holder>(M{})` selects the by-value
overload and makes one copy, of `arg0` into the constructor's parameter, besides the
moves of direct construction. For an lvalue argument it makes two copies where direct
construction makes one. -/
theorem Instance_by_value_adds_copy (e : Bool) :
    (construct (cxx e) Holder.ctorValue [⟨.M, .prvalue, 9⟩]).map
        (fun b => Counts.total b.counts b.body) = .ok ⟨0, if e then 1 else 2⟩
      ∧ (Instance (cxx e) Holder.ctorValue [⟨.M, .prvalue, 9⟩] []).map
        (fun r => Counts.total r.counts r.body) = .ok ⟨1, if e then 1 else 2⟩
      ∧ (construct (cxx e) Holder.ctorValue [⟨.M, .lvalue, 9⟩]).map
        (fun b => Counts.total b.counts b.body) = .ok ⟨1, 1⟩
      ∧ (Instance (cxx e) Holder.ctorValue [⟨.M, .lvalue, 9⟩] []).map
        (fun r => Counts.total r.counts r.body) = .ok ⟨2, 1⟩ := by
  cases e <;> decide

/-- C6, at the failing input. For `void Sink::take(M m)` and an lvalue `x` of type `M`,
the direct call `s.take(x)` makes one copy; the invocation through the delegate is
rejected at build time, because the parameter `M&&` of `operator()` does not bind the
lvalue. For the expiring `std::move(x)` both make one move; for the temporary `M{}` the
delegate makes one move, and so does the direct call unless the compiler elides it. -/
theorem delegate_counts_differ (e : Bool) :
    (callMember (cxx e) (some 0) Sink.take [⟨.M, .lvalue, 9⟩] ⟨[⟨⟩], []⟩).map
        (fun r => r.counts) = .ok [⟨1, 0⟩]
      ∧ ((CreateDelegate (some 0) Sink.take).call (cxx e) [⟨.M, .lvalue, 9⟩]
          ⟨[⟨⟩], []⟩).map (fun i => i.res.counts) = .error .rejected
      ∧ (callMember (cxx e) (some 0) Sink.take [⟨.M, .xvalue, 9⟩] ⟨[⟨⟩], []⟩).map
        (fun r => r.counts) = .ok [⟨0, 1⟩]
      ∧ ((CreateDelegate (some 0) Sink.take).call (cxx e) [⟨.M, .xvalue, 9⟩]
          ⟨[⟨⟩], []⟩).map (fun i => i.res.counts) = .ok [⟨0, 1⟩]
      ∧ (callMember (cxx e) (some 0) Sink.take [⟨.M, .prvalue, 9⟩] ⟨[⟨⟩], []⟩).map
        (fun r => r.counts) = .ok [⟨0, if e then 0 else 1⟩]
      ∧ ((CreateDelegate (some 0) Sink.take).call (cxx e) [⟨.M, .prvalue, 9⟩]
          ⟨[⟨⟩], []⟩).map (fun i => i.res.counts) = .ok [⟨0, 1⟩] := by
  cases e <;> decide

/-- C7, counterexample. The constructor and `CreateDelegate` store a null member
designator as it is given: the stored `m_f` is null. -/
theorem CreateDelegate_null_designator :
    (CreateDelegate (some 0) C.nullMember).m_f.fn.isSome = false
      ∧ (MyDelegate.mk (some 0) C.nullMember).m_f.fn.isSome = false := by
  decide

/-- C7, amended. In every delegate obtained from the constructor or from
`CreateDelegate`, the stored `m_f` is the designator given at construction (so it is
null exactly when a null designator was given) and the stored `m_t` is the target given
at construction; after any sequence of invocations that runs to its end both are
unchanged. -/
theorem delegate_members_fixed {Ty V T R : Type} [DecidableEq Ty] (L : Lang Ty V)
    (t : Option Nat) (f : MemPtr Ty V T R) (argss : List (List (Arg Ty V))) (w : World T)
    (d' : MyDelegate Ty V T R) (rs : List R) (w' : World T)
    (hrun : (CreateDelegate t f).callAll L argss w = .ok (d', rs, w')) :
    (MyDelegate.mk t f).m_t = t ∧ (MyDelegate.mk t f).m_f = f
      ∧ (CreateDelegate t f).m_t = t ∧ (CreateDelegate t f).m_f = f
      ∧ d'.m_t = t ∧ d'.m_f = f
      ∧ (d'.m_f.fn.isSome = f.fn.isSome) := by
  have hd := callAll_self L argss (CreateDelegate t f) w d' rs w' hrun
  subst hd
  exact ⟨rfl, rfl, rfl, rfl, rfl, rfl, rfl⟩

/-- Witness of C7: `d = CreateDelegate(&c, &C::add)` after `d(2, 3)` and `d(4, 5)`. -/
theorem delegate_members_fixed_witness :
    (CreateDelegate (some 0) C.add).callAll (cxx true)
        [[⟨.int, .prvalue, 2⟩, ⟨.int, .prvalue, 3⟩], [⟨.int, .prvalue, 4⟩, ⟨.int, .prvalue, 5⟩]]
        ⟨[⟨0⟩], []⟩
        = .ok (CreateDelegate (some 0) C.add, [5, 9], ⟨[⟨0⟩], []⟩)
      ∧ (CreateDelegate (some 0) C.add).m_t = some 0
      ∧ (CreateDelegate (some 0) C.add).m_f.fn.isSome = true :=
  ⟨by rfl,
   (delegate_members_fixed (cxx true) (some 0) C.add
      [[⟨.int, .prvalue, 2⟩, ⟨.int, .prvalue, 3⟩], [⟨.int, .prvalue, 4⟩, ⟨.int, .prvalue, 5⟩]]
      ⟨[⟨0⟩], []⟩ (CreateDelegate (some 0) C.add) [5, 9] ⟨[⟨0⟩], []⟩ (by rfl)).2.2.1,
   by decide⟩

/-- C9. For every argument list of length n and every state of `cout`, `print`
terminates; it makes exactly n recursive calls, the i-th on the list without its first i
elements, and appends exactly n + 1 lines to `cout`: `param a` for each argument `a` in
argument order, then `empty`. `print(1, 2, 3, 4)` writes `param 1`, `param 2`,
`param 3`, `param 4`, `empty` through the calls `print(2, 3, 4)`, `print(3, 4)`,
`print(4)`, `print()`. -/
theorem print_expansion {V : Type} (sh : V → String) (args : List V) (r : PrintRun V) :
    print sh args r
        = ⟨r.out ++ args.map (fun a => "param " ++ sh a) ++ ["empty"],
           r.calls ++ (List.range args.length).map (fun i => args.drop (i + 1))⟩
      ∧ (print sh args r).calls.length = r.calls.length + args.length
      ∧ (print sh args r).out.length = r.out.length + (args.length + 1)
      ∧ print (fun i : Int => toString i) [1, 2, 3, 4] ⟨[], []⟩
          = ⟨["param 1", "param 2", "param 3", "param 4", "empty"],
             [[2, 3, 4], [3, 4], [4], []]⟩ := by
  refine ⟨print_eq sh args r, ?_, ?_, by decide⟩
  · rw [print_eq]; simp
  · rw [print_eq]; simp

/-- C10. For every first argument of type `T` and every list of further arguments,
`sum` terminates; a single argument is returned unchanged; otherwise the later
arguments are converted to `T` and the result is `a1 + (a2 + (... + an))` with the
addition of `T`: the exact sum for integers, the sum modulo `2 ^ w` for the unsigned
type of `w` bits, and the exact sum for the signed type of `w` bits when the sum of
every tail of the argument list is representable; `sum(1, 2, 3, 4)` is 10. -/
theorem sum_right_nested {T V : Type} (add : T → T → T) (conv : V → T) (first : T)
    (rest : List V) :
    sum add conv first [] = first
      ∧ sum add conv first rest
          = List.foldr add (List.getLast (first :: rest.map conv) (List.cons_ne_nil _ _))
              (first :: rest.map conv).dropLast
      ∧ (∀ (a : Int) (as : List Int), sum (· + ·) id a as = a + as.sum)
      ∧ (∀ (w a : Nat) (as : List Nat),
          sum (addU w) (toU w) (toU w a) as = (a + as.sum) % 2 ^ w)
      ∧ (∀ (w : Nat) (a : Int) (as : List Int),
          (∀ k, k ≤ as.length → fitsS w ((a :: as).drop k).sum = true) →
          sum (addS w) some (some a) as = some (a + as.sum))
      ∧ sum (· + ·) id (1 : Int) [2, 3, 4] = 10 :=
  ⟨rfl, sum_eq_foldr add conv first rest, sum_int, sum_unsigned,
   fun w a as h => sum_signed w as a h, by decide⟩

/-- Witness of C10: `sum(1, 2, 3, 4)` in the signed type of 32 bits. -/
theorem sum_right_nested_witness :
    (∀ k, k ≤ [(2 : Int), 3, 4].length → fitsS 32 (((1 : Int) :: [2, 3, 4]).drop k).sum = true)
      ∧ sum (addS 32) some (some (1 : Int)) [2, 3, 4] = some 10 :=
  ⟨by decide,
   (sum_right_nested (addS 32) some (some (1 : Int)) [2, 3, 4]).2.2.2.2.1 32 1 [2, 3, 4]
     (by decide)⟩

end CPP11
